import Mathlib

/-!
# Verification of the Lingbuzz scraper notebook (`src/LinguistSearch.ipynb`)

A shallow embedding of the notebook's pure logic:

* text helpers modelling the Python 2 string/`re` operations used by the
  notebook (on the ASCII inputs the claims are about);
* `parse_doc` — the document-page parser (cell-8);
* `fetchDocIdAndNextPage` — the listing-page parser (cell-8), over an
  abstract list of anchor elements (href + stripped visible text), which is
  what the BeautifulSoup `find_all('a')` scan iterates over;
* `normalizeRecord` — the per-record body of the normalization loop (cell-12);
* `crawlLoop` / `processIds` — the crawl driver loop (cell-10), with the
  network abstracted into a `site` map from listing URL to parse result and
  an `f : String → Article` for "fetch and parse the document page"
  (instrumented with a ghost log of the identifiers actually fetched);
* `saveStore` / `loadStore` — the JSON snapshot layer (cells 4 and 14) at the
  level of JSON values (formatting/indentation abstracted away).

Python errors (`ValueError` from `list.index`, `IndexError` from
out-of-range subscripts, `AttributeError` from `None` attribute access /
failed `re.search(...).group()`) are modelled with `Except PyError`.
-/

/-- Python exceptions raised by the unguarded lookups in the notebook. -/
inductive PyError where
  | valueError
  | indexError
  | attributeError
deriving DecidableEq, Repr

/-! ## Character and string helpers (Python 2 semantics on ASCII input) -/

/-- Python `str.lower` restricted to ASCII: map `A`-`Z` to `a`-`z`,
leave every other character unchanged.  All strings handled by the
notebook's claims are ASCII, where this is exactly `unicode.lower`. -/
def lowerChar (c : Char) : Char :=
  if 65 ≤ c.toNat ∧ c.toNat ≤ 90 then Char.ofNat (c.toNat + 32) else c

/-- Python `s.lower()` on a whole string. -/
def pyLower (s : String) : String := ⟨s.data.map lowerChar⟩

/-- Split a character list at every occurrence of `sep`.  Mirrors Python
`str.split(sep)` for a one-character separator: no run collapsing, and the
empty string splits to `[""]`. -/
def splitChar (sep : Char) : List Char → List (List Char)
  | [] => [[]]
  | c :: cs =>
    match splitChar sep cs with
    | [] => [[c]]
    | l :: ls => if c = sep then [] :: l :: ls else (c :: l) :: ls

/-- Python `s.split(sep)` for a one-character separator. -/
def pySplit (s : String) (sep : Char) : List String :=
  (splitChar sep s.data).map (fun l => ⟨l⟩)

/-- Python whitespace characters stripped by `str.strip()` (ASCII). -/
def isPySpace (c : Char) : Bool :=
  c == ' ' || c == '\t' || c == '\n' || c == '\r' || c.toNat == 11 || c.toNat == 12

/-- Python `s.strip()`. -/
def pyStrip (s : String) : String :=
  ⟨(((s.data.dropWhile isPySpace).reverse).dropWhile isPySpace).reverse⟩

/-- `str(val.encode("ascii", "ignore"))`: drop every non-7-bit character. -/
def asciiFilter (s : String) : String := ⟨s.data.filter (fun c => c.toNat < 128)⟩

/-- Python `list.index` returning the index of the first occurrence,
`none` when the value is absent (where Python raises `ValueError`). -/
def pyIndex : List String → String → Option Nat
  | [], _ => none
  | y :: ys, x => if y = x then some 0 else (pyIndex ys x).map (· + 1)

/-- Python slice `l[a:b]` for non-negative bounds (clamped, empty when
`b ≤ a`). -/
def pySlice (l : List String) (a b : Nat) : List String := (l.take b).drop a

/-- The numeric value of a decimal digit string, as Python `int` computes it
on the output of `re.search(r'\d+', ...)`. -/
def natOfDigits (l : List Char) : Nat :=
  l.foldl (fun n c => 10 * n + (c.toNat - 48)) 0

/-- Python `re.search(r'\d+', s)`: the first maximal run of decimal digits
of `s`, or `none` when `s` has no digit (where `.group()` then raises
`AttributeError` on `None`). -/
def firstDigitRun : List Char → Option (List Char)
  | [] => none
  | c :: cs =>
    if c.isDigit then some (c :: cs.takeWhile Char.isDigit) else firstDigitRun cs

/-- Python `re.search(r'\d{6}$', href)`.  `\d{6}$` matches exactly when six
decimal digits end the subject (Python's `$` also matches just before one
final newline, which the model honours by trimming it); the leftmost such
match is the final six characters, so a trailing run of more than six digits
still matches — with its last six digits as the group. -/
def searchD6 (href : String) : Option String :=
  let cs := if href.data.getLast? = some '\n' then href.data.dropLast else href.data
  if 6 ≤ cs.length ∧ (cs.drop (cs.length - 6)).all Char.isDigit then
    some ⟨cs.drop (cs.length - 6)⟩
  else none

/-- Does the character list begin with `Next \d+ articles`? -/
def nextArticlesAt (cs : List Char) : Bool :=
  match cs with
  | 'N' :: 'e' :: 'x' :: 't' :: ' ' :: rest =>
    let ds := rest.takeWhile Char.isDigit
    !ds.isEmpty && (" articles".data).isPrefixOf (rest.drop ds.length)
  | _ => false

/-- Python `re.search(r'Next \d+ articles', text)` viewed as a Boolean:
does `text` contain a substring `Next <digits> articles`? -/
def hasNextArticles : List Char → Bool
  | [] => false
  | c :: cs => nextArticlesAt (c :: cs) || hasNextArticles cs

/-! ## Data model -/

/-- The `kwd` field: the raw comma-joined string stored by `parse_doc`,
or the token list the normalization pass converts it into. -/
inductive KwdField where
  | raw (s : String)
  | toks (l : List String)
deriving DecidableEq, Repr

/-- The `cnt` field: the raw string stored by `parse_doc`, or the integer
the normalization pass coerces it into. -/
inductive CntField where
  | raw (s : String)
  | num (n : Nat)
deriving DecidableEq, Repr

/-- One corpus entry, with the fields `parse_doc` fills in (cell-8). -/
structure Article where
  ref : String
  tit : String
  dat : String
  aut : List String
  pub : String
  kwd : KwdField
  cnt : CntField
  exc : String
deriving DecidableEq, Repr

/-! ## Document parser (`parse_doc`, cell-8) -/

/-- A fetched document page, reduced to what `parse_doc` reads from the
BeautifulSoup tree: the flattened text of `parsed.body.center` (absent when
the page has no `<center>` element, in which case the attribute access on
`None` raises `AttributeError`) and the flattened text of `parsed.body`,
both as produced by `get_text("\n", strip=True)`. -/
structure DocPage where
  headText : Option String
  bodyText : String
deriving DecidableEq, Repr

/-- `parsed.body.get_text("\n", strip=True).lower().split("\n")`. -/
def bodyLines (p : DocPage) : List String := pySplit (pyLower p.bodyText) '\n'

/-- `parse_doc` (cell-8): marker-based field extraction from the flattened,
lowercased page text.  The `pub` lookup alone guards against `ValueError`;
the `kwd`, `cnt`, date and `format:` lookups propagate errors, as does a
missing `<center>` header block. -/
def parse_doc (p : DocPage) (doc_id : String) : Except PyError (Option Article) :=
  match p.headText with
  | none => .error .attributeError
  | some ht =>
    let text_head := pySplit (pyLower ht) '\n'
    let text_body := bodyLines p
    match text_head.head?, text_head.getLast? with
    | some tit, some dat =>
      let aut := ((text_head.drop 1).dropLast.filter (fun v => v ≠ ",")).map asciiFilter
      let pubE : Except PyError String :=
        match pyIndex text_body "published in:" with
        | none => .ok "N/A"
        | some i =>
          match text_body.get? (i + 1) with
          | none => .error .indexError
          | some v => .ok v
      match pubE with
      | .error e => .error e
      | .ok pub =>
        match pyIndex text_body "keywords:" with
        | none => .error .valueError
        | some ik =>
          match text_body.get? (ik + 1) with
          | none => .error .indexError
          | some kwd =>
            match pyIndex text_body "downloaded:" with
            | none => .error .valueError
            | some ic =>
              match text_body.get? (ic + 1) with
              | none => .error .indexError
              | some cnt =>
                match pyIndex text_body dat with
                | none => .error .valueError
                | some idat =>
                  match pyIndex text_body "format:" with
                  | none => .error .valueError
                  | some ifmt =>
                    .ok (some
                      { ref := doc_id, tit := tit, dat := dat, aut := aut
                        pub := pub, kwd := .raw kwd, cnt := .raw cnt
                        exc := " ".intercalate (pySlice text_body (idat + 1) ifmt) })
    | _, _ => .error .indexError

/-! ## Normalization pass (cell-12, loop body for one record) -/

/-- The punctuation class of `re.sub(r'[;:.\,()]', '', ...)`. -/
def punctChars : List Char := [';', ':', '.', ',', '(', ')']

/-- `re.sub(r'[;:.\,()]', '', s)`. -/
def stripPunct (s : String) : String :=
  ⟨s.data.filter (fun c => !punctChars.contains c)⟩

/-- `int(re.search(r'\d+', s).group())` applied when `cnt` is not yet an
integer; a digit-free string makes `re.search` return `None` and the
`.group()` call raise `AttributeError`. -/
def normalizeCnt : CntField → Except PyError CntField
  | .num n => .ok (.num n)
  | .raw s =>
    match firstDigitRun s.data with
    | none => .error .attributeError
    | some ds => .ok (.num (natOfDigits ds))

/-- The `kwd` branch of cell-12: an existing list is lowercased element-wise;
a raw string is split on commas, and each token stripped and lowercased. -/
def normalizeKwd : KwdField → KwdField
  | .toks l => .toks (l.map pyLower)
  | .raw s => .toks ((pySplit s ',').map (fun kw => pyLower (pyStrip kw)))

/-- One iteration of the cell-12 loop on a single record: coerce `cnt`,
strip punctuation from `exc` and lowercase it, normalize `kwd`. -/
def normalizeRecord (a : Article) : Except PyError Article :=
  match normalizeCnt a.cnt with
  | .error e => .error e
  | .ok c =>
    .ok { a with cnt := c, exc := pyLower (stripPunct a.exc), kwd := normalizeKwd a.kwd }

/-- `parse_doc` followed by the cell-12 normalization of the new record. -/
def parseAndNormalize (p : DocPage) (doc_id : String) : Except PyError (Option Article) :=
  match parse_doc p doc_id with
  | .error e => .error e
  | .ok none => .ok none
  | .ok (some a) =>
    match normalizeRecord a with
    | .error e => .error e
    | .ok b => .ok (some b)

/-! ## Listing parser (`fetchDocIdAndNextPage`, cell-8) -/

/-- One anchor element of a listing page, reduced to what the scan reads:
`item.get("href")` and `item.get_text(strip=True)`.  (An anchor with no
`href` attribute would make `re.search` raise `TypeError` on `None`; valid
listing pages carry an `href` on every anchor.) -/
structure Anchor where
  href : String
  text : String
deriving DecidableEq, Repr

/-- One step of the anchor scan of `fetchDocIdAndNextPage`: an id match on
the link target takes the `if` branch and appends the six matched digits;
otherwise an anchor whose visible text contains `Next <N> articles`
overwrites the next-page path with its link target. -/
def anchorStep (acc : List String × String) (a : Anchor) : List String × String :=
  match searchD6 a.href with
  | some g => (acc.1 ++ [g], acc.2)
  | none => if hasNextArticles a.text.data then (acc.1, a.href) else acc

/-- The anchor scan of `fetchDocIdAndNextPage` (cell-8), starting from an
empty id list and an empty next-page path. -/
def fetchDocIdAndNextPage (anchors : List Anchor) : List String × String :=
  anchors.foldl anchorStep ([], "")

/-- The link target of the last anchor of `l` that is not an id match and
whose visible text contains `Next <N> articles`, or the default `d` when
there is no such anchor. -/
def lastNextHref (l : List Anchor) (d : String) : String :=
  match (l.filter
      (fun a => (searchD6 a.href).isNone && hasNextArticles a.text.data)).getLast? with
  | some a => a.href
  | none => d

/-- Spec-side description of the returned next-page path: the link target
of the last anchor that is not an id match and whose visible text contains
`Next <N> articles`, or the empty string when there is no such anchor. -/
def specNextPage (anchors : List Anchor) : String := lastNextHref anchors ""

/-! ## Corpus store and crawl driver (cells 4, 10) -/

/-- The in-memory store `ref_dict`, as an insertion-ordered association
list from 6-digit identifier to record. -/
abbrev Store : Type := List (String × Article)

/-- Dictionary lookup (`ref_dict[id]` / `id in ref_dict.keys()`). -/
def lookupStore : Store → String → Option Article
  | [], _ => none
  | p :: ps, id_ => if p.1 = id_ then some p.2 else lookupStore ps id_

/-- The identifiers of a store, in insertion order. -/
def storeKeys (st : Store) : List String := st.map Prod.fst

/-- The inner `for id in id_list` loop of cell-10: skip identifiers already
in the store, otherwise fetch + parse (abstracted by `f`) and insert.  The
extra `log` component is a ghost trace of the identifiers actually fetched,
in order. -/
def processIds (f : String → Article) : List String → Store → List String → Store × List String
  | [], st, log => (st, log)
  | id_ :: ids, st, log =>
    if (lookupStore st id_).isSome then processIds f ids st log
    else processIds f ids (st ++ [(id_, f id_)]) (log ++ [id_])

/-- `url_base` (cell-6). -/
def url_base : String := "http://lingbuzz.auf.net"

/-- The `while True` crawl loop of cell-10, fuelled to stay total.  Each
round parses the current listing page (abstracted by `site`, which returns
`(id_list, next_url)`); an empty `next_url` breaks out *before* the inner
`for` loop runs, so the ids of that final page are never processed;
otherwise the ids are processed and the loop advances to
`url_base ++ next_url`. -/
def crawlLoop (site : String → List String × String) (f : String → Article) :
    Nat → String → Store → List String → Option (Store × List String)
  | 0, _, _, _ => none
  | Nat.succ fuel, page, st, log =>
    let r := site page
    if r.2 = "" then some (st, log)
    else
      let pr := processIds f r.1 st log
      crawlLoop site f fuel (url_base ++ r.2) pr.1 pr.2

/-- The identifiers listed on the pages whose ids the cell-10 loop actually
processes: every page visited before the one that reports an empty
next-page path. -/
def listedIds (site : String → List String × String) : Nat → String → List String
  | 0, _ => []
  | Nat.succ fuel, page =>
    let r := site page
    if r.2 = "" then [] else r.1 ++ listedIds site fuel (url_base ++ r.2)

/-! ## JSON snapshot layer (cells 4 and 14) -/

/-- JSON values, as far as the corpus snapshot uses them. -/
inductive JVal where
  | jstr (s : String)
  | jnum (n : Nat)
  | jarr (l : List JVal)
  | jobj (l : List (String × JVal))

/-- Field lookup in a JSON object. -/
def lookupField (l : List (String × JVal)) (k : String) : Option JVal :=
  (l.find? (fun p => p.1 == k)).map (·.2)

/-- How `json.dump` renders the `cnt` field. -/
def encodeCnt : CntField → JVal
  | .raw s => .jstr s
  | .num n => .jnum n

/-- How `json.dump` renders the `kwd` field. -/
def encodeKwd : KwdField → JVal
  | .raw s => .jstr s
  | .toks l => .jarr (l.map .jstr)

/-- How `json.dump` renders one record. -/
def encodeArticle (a : Article) : JVal :=
  .jobj [("ref", .jstr a.ref), ("tit", .jstr a.tit), ("dat", .jstr a.dat),
         ("aut", .jarr (a.aut.map .jstr)), ("pub", .jstr a.pub),
         ("kwd", encodeKwd a.kwd), ("cnt", encodeCnt a.cnt),
         ("exc", .jstr a.exc)]

/-- Decode a list of JSON string values. -/
def decodeJstrs : List JVal → Option (List String)
  | [] => some []
  | .jstr s :: t => (decodeJstrs t).map (s :: ·)
  | _ :: _ => none

/-- Decode a JSON array of strings. -/
def decodeStrList : JVal → Option (List String)
  | .jarr l => decodeJstrs l
  | _ => none

/-- Decode the `cnt` field. -/
def decodeCnt : JVal → Option CntField
  | .jstr s => some (.raw s)
  | .jnum n => some (.num n)
  | _ => none

/-- Decode the `kwd` field. -/
def decodeKwd : JVal → Option KwdField
  | .jstr s => some (.raw s)
  | .jarr l => (decodeStrList (.jarr l)).map .toks
  | _ => none

/-- Decode one record from its JSON object. -/
def decodeArticle : JVal → Option Article
  | .jobj f =>
    match lookupField f "ref", lookupField f "tit", lookupField f "dat",
        lookupField f "aut", lookupField f "pub", lookupField f "kwd",
        lookupField f "cnt", lookupField f "exc" with
    | some (.jstr ref), some (.jstr tit), some (.jstr dat), some autj,
        some (.jstr pub), some kwdj, some cntj, some (.jstr exc) =>
      match decodeStrList autj, decodeKwd kwdj, decodeCnt cntj with
      | some aut, some kwd, some cnt =>
        some { ref := ref, tit := tit, dat := dat, aut := aut, pub := pub,
               kwd := kwd, cnt := cnt, exc := exc }
      | _, _, _ => none
    | _, _, _, _, _, _, _, _ => none
  | _ => none

/-- `json.dump(ref_dict, ...)` (cell-14) up to formatting: the snapshot as
a JSON object, one member per store entry. -/
def saveStore (st : Store) : JVal :=
  .jobj (st.map (fun p => (p.1, encodeArticle p.2)))

/-- Decode the members of the snapshot object back into store entries. -/
def loadEntries : List (String × JVal) → Option Store
  | [] => some []
  | (k, j) :: t =>
    match decodeArticle j with
    | none => none
    | some a => (loadEntries t).map ((k, a) :: ·)

/-- `json.load` (cell-4) up to formatting: recover the store from a
snapshot value. -/
def loadStore : JVal → Option Store
  | .jobj l => loadEntries l
  | _ => none

/-! ## Spec-side definitions and fixtures -/

/-- Spec-side description of the excerpt (§4.3 of the spec): the body lines
strictly between the first occurrence, located by value, of the date line
and the literal marker line `format:`. -/
def sliceBetween (body : List String) (dat : String) : List String :=
  match pyIndex body dat, pyIndex body "format:" with
  | some i, some j => pySlice body (i + 1) j
  | _, _ => []

/-- The document page of the spec's concrete scenario (§8): flattened body
text of 13 lines, header block the first 3. -/
def c1Page : DocPage :=
  { headText := some "doc title\njane doe\n2020-01-01"
    bodyText := "doc title\njane doe\n2020-01-01\npublished in:\njournal of syntax\nkeywords:\nsyntax, semantics\ndownloaded:\n42 times\ndoc title\nsome excerpt text\nformat:\npdf" }

/-- What `parse_doc` actually returns on `c1Page`: the excerpt slice runs
from just after the date line (index 2) to the `format:` line (index 11)
and therefore swallows the marker lines. -/
def c1Raw : Article :=
  { ref := "004512", tit := "doc title", dat := "2020-01-01", aut := ["jane doe"]
    pub := "journal of syntax", kwd := .raw "syntax, semantics", cnt := .raw "42 times"
    exc := "published in: journal of syntax keywords: syntax, semantics downloaded: 42 times doc title some excerpt text" }

/-- `c1Raw` after the cell-12 normalization pass. -/
def c1Norm : Article :=
  { ref := "004512", tit := "doc title", dat := "2020-01-01", aut := ["jane doe"]
    pub := "journal of syntax", kwd := .toks ["syntax", "semantics"], cnt := .num 42
    exc := "published in journal of syntax keywords syntax semantics downloaded 42 times doc title some excerpt text" }

/-! ## Inversion of `parse_doc` -/

lemma parse_doc_inv (p : DocPage) (doc_id : String) (v : Option Article)
    (h : parse_doc p doc_id = .ok v) :
    ∃ ht tit dat pub ik kv ic cv idat ifmt,
      p.headText = some ht ∧
      (pySplit (pyLower ht) '\n').head? = some tit ∧
      (pySplit (pyLower ht) '\n').getLast? = some dat ∧
      pyIndex (bodyLines p) "keywords:" = some ik ∧
      (bodyLines p).get? (ik + 1) = some kv ∧
      pyIndex (bodyLines p) "downloaded:" = some ic ∧
      (bodyLines p).get? (ic + 1) = some cv ∧
      pyIndex (bodyLines p) dat = some idat ∧
      pyIndex (bodyLines p) "format:" = some ifmt ∧
      v = some { ref := doc_id, tit := tit, dat := dat,
                 aut := (((pySplit (pyLower ht) '\n').drop 1).dropLast.filter
                   (fun x => x ≠ ",")).map asciiFilter,
                 pub := pub, kwd := .raw kv, cnt := .raw cv,
                 exc := " ".intercalate (pySlice (bodyLines p) (idat + 1) ifmt) } := by
  unfold parse_doc at h
  split at h
  · exact absurd h (by simp)
  · rename_i ht hht
    dsimp only at h
    split at h
    · rename_i tit dat hhead hlast
      split at h
      · exact absurd h (by simp)
      · rename_i pub hpub
        split at h
        · exact absurd h (by simp)
        · rename_i ik hik
          split at h
          · exact absurd h (by simp)
          · rename_i kv hkv
            split at h
            · exact absurd h (by simp)
            · rename_i ic hic
              split at h
              · exact absurd h (by simp)
              · rename_i cv hcv
                split at h
                · exact absurd h (by simp)
                · rename_i idat hidat
                  split at h
                  · exact absurd h (by simp)
                  · rename_i ifmt hifmt
                    injection h with h'
                    exact ⟨ht, tit, dat, pub, ik, kv, ic, cv, idat, ifmt, hht,
                      hhead, hlast, hik, hkv, hic, hcv, hidat, hifmt, h'.symm⟩
    · exact absurd h (by simp)

/-! ## Claim C1 -/

/-- C1 (counterexample): on the document page of the spec's concrete
scenario, `parse_doc` followed by the normalization pass yields a record
whose `exc` field is not `"some excerpt text"` — the excerpt slice from the
date line to the `format:` marker swallows the intervening marker lines, so
the claimed output is wrong on the `exc` field. -/
theorem c1_counterexample :
    parseAndNormalize c1Page "004512" = .ok (some c1Norm) ∧
      c1Norm.exc ≠ "some excerpt text" :=
  ⟨by set_option maxRecDepth 8000 in rfl, by decide⟩

/-- C1 (amended): on the document page of the spec's concrete scenario,
`parse_doc` followed by the normalization pass yields `tit = "doc title"`,
`aut = ["jane doe"]`, `dat = "2020-01-01"`, `pub = "journal of syntax"`,
`kwd = ["syntax", "semantics"]`, `cnt = 42`, and `exc` equal to every body
line strictly between the date line and the `format:` marker joined by
single spaces and then normalized, namely `"published in journal of syntax
keywords syntax semantics downloaded 42 times doc title some excerpt
text"` — not `"some excerpt text"`. -/
theorem c1_scenario_amended :
    parseAndNormalize c1Page "004512" = .ok (some c1Norm) ∧
      c1Norm.tit = "doc title" ∧ c1Norm.aut = ["jane doe"] ∧
      c1Norm.dat = "2020-01-01" ∧ c1Norm.pub = "journal of syntax" ∧
      c1Norm.kwd = .toks ["syntax", "semantics"] ∧ c1Norm.cnt = .num 42 ∧
      c1Norm.exc = "published in journal of syntax keywords syntax semantics downloaded 42 times doc title some excerpt text" :=
  ⟨by set_option maxRecDepth 8000 in rfl, rfl, rfl, rfl, rfl, rfl, rfl, rfl⟩

/-! ## Claim C4 -/

/-- C4: whenever `parse_doc` accepts a document page, the `exc` field is
exactly the flattened body-text lines strictly between the first occurrence
(located by value) of the date line and the literal marker line `format:`,
joined with single spaces. -/
theorem c4_excerpt_slice (p : DocPage) (doc_id : String) (a : Article)
    (h : parse_doc p doc_id = .ok (some a)) :
    a.exc = " ".intercalate (sliceBetween (bodyLines p) a.dat) := by
  obtain ⟨ht, tit, dat, pub, ik, kv, ic, cv, idat, ifmt, hht, hhead, hlast,
    hik, hkv, hic, hcv, hidat, hifmt, hv⟩ := parse_doc_inv p doc_id (some a) h
  obtain rfl := Option.some.inj hv
  simp [sliceBetween, hidat, hifmt]

/-- C4 (witness): the concrete scenario page instantiates the excerpt
characterization. -/
theorem c4_excerpt_slice_witness :
    parse_doc c1Page "004512" = .ok (some c1Raw) ∧
      c1Raw.exc = " ".intercalate (sliceBetween (bodyLines c1Page) c1Raw.dat) :=
  ⟨by set_option maxRecDepth 8000 in rfl,
   c4_excerpt_slice c1Page "004512" c1Raw (by set_option maxRecDepth 8000 in rfl)⟩

/-! ## Claim C5 -/

/-- C5: a document page whose flattened body text lacks the marker line
`keywords:` or the marker line `downloaded:`, or whose header block cannot
be split (no `<center>` element), makes `parse_doc` raise an error that
propagates to the caller — the result is an `Except.error`, never a record
and never the `None` of a failed parse. -/
theorem c5_unguarded_lookups (p : DocPage) (doc_id : String)
    (h : p.headText = none ∨ pyIndex (bodyLines p) "keywords:" = none ∨
      pyIndex (bodyLines p) "downloaded:" = none) :
    ∃ e, parse_doc p doc_id = .error e := by
  cases hres : parse_doc p doc_id with
  | error e => exact ⟨e, rfl⟩
  | ok v =>
    exfalso
    obtain ⟨ht, tit, dat, pub, ik, kv, ic, cv, idat, ifmt, hht, hhead, hlast,
      hik, hkv, hic, hcv, hidat, hifmt, hv⟩ := parse_doc_inv p doc_id v hres
    rcases h with h | h | h
    · rw [h] at hht; cases hht
    · rw [h] at hik; cases hik
    · rw [h] at hic; cases hic

/-- The body text of a document page with no `keywords:` marker line. -/
def c5Page : DocPage :=
  { headText := some "doc title\njane doe\n2020-01-01"
    bodyText := "doc title\njane doe\n2020-01-01\ndownloaded:\n42 times\nsome excerpt text\nformat:\npdf" }

/-- C5 (witness): a concrete page lacking the `keywords:` marker makes
`parse_doc` error out. -/
theorem c5_unguarded_lookups_witness :
    (c5Page.headText = none ∨ pyIndex (bodyLines c5Page) "keywords:" = none ∨
      pyIndex (bodyLines c5Page) "downloaded:" = none) ∧
      ∃ e, parse_doc c5Page "004512" = .error e :=
  ⟨Or.inr (Or.inl (by set_option maxRecDepth 4000 in rfl)),
   c5_unguarded_lookups c5Page "004512"
     (Or.inr (Or.inl (by set_option maxRecDepth 4000 in rfl)))⟩

/-! ## Character-level lemmas for the normalization pass -/

lemma char_toNat_ofNat_lower {n : Nat} (h1 : 97 ≤ n) (h2 : n ≤ 122) :
    (Char.ofNat n).toNat = n := by
  interval_cases n <;> decide

lemma lowerChar_toNat_of_upper {c : Char} (h : 65 ≤ c.toNat ∧ c.toNat ≤ 90) :
    (lowerChar c).toNat = c.toNat + 32 := by
  rw [lowerChar, if_pos h]
  exact char_toNat_ofNat_lower (by omega) (by omega)

lemma lowerChar_eq_self {c : Char} (h : ¬(65 ≤ c.toNat ∧ c.toNat ≤ 90)) :
    lowerChar c = c := by
  rw [lowerChar, if_neg h]

lemma lowerChar_idem (c : Char) : lowerChar (lowerChar c) = lowerChar c := by
  by_cases h : 65 ≤ c.toNat ∧ c.toNat ≤ 90
  · have ht := lowerChar_toNat_of_upper h
    exact lowerChar_eq_self (by omega)
  · rw [lowerChar_eq_self h]
    exact lowerChar_eq_self h

lemma pyLower_idem (s : String) : pyLower (pyLower s) = pyLower s := by
  simp only [pyLower, List.map_map]
  exact congrArg String.mk (List.map_congr_left fun c _ => lowerChar_idem c)

lemma mem_punct_toNat {c : Char} (h : c ∈ punctChars) : c.toNat < 60 := by
  fin_cases h <;> decide

lemma mem_punct_lowerChar (c : Char) : lowerChar c ∈ punctChars ↔ c ∈ punctChars := by
  by_cases h : 65 ≤ c.toNat ∧ c.toNat ≤ 90
  · have ht := lowerChar_toNat_of_upper h
    constructor
    · intro hm; have := mem_punct_toNat hm; omega
    · intro hm; have := mem_punct_toNat hm; omega
  · rw [lowerChar_eq_self h]

lemma punctKey_lowerChar (c : Char) :
    (!punctChars.contains (lowerChar c)) = (!punctChars.contains c) := by
  unfold List.contains
  simp only [List.elem_eq_mem]
  rw [decide_eq_decide.mpr (mem_punct_lowerChar c)]

lemma filter_punct_map_lower (d : List Char) :
    (d.map lowerChar).filter (fun c => !punctChars.contains c) =
      (d.filter (fun c => !punctChars.contains c)).map lowerChar := by
  rw [List.filter_map]
  exact congrArg _ (List.filter_congr fun c _ => punctKey_lowerChar c)

lemma stripPunct_pyLower (s : String) :
    stripPunct (pyLower s) = pyLower (stripPunct s) := by
  simp only [stripPunct, pyLower]
  exact congrArg String.mk (filter_punct_map_lower s.data)

lemma stripPunct_idem (s : String) : stripPunct (stripPunct s) = stripPunct s := by
  simp only [stripPunct, List.filter_filter]
  exact congrArg String.mk (List.filter_congr fun c _ => by simp)

lemma excNorm_idem (s : String) :
    pyLower (stripPunct (pyLower (stripPunct s))) = pyLower (stripPunct s) := by
  rw [stripPunct_pyLower, stripPunct_idem, pyLower_idem]

lemma normalizeKwd_idem (k : KwdField) :
    normalizeKwd (normalizeKwd k) = normalizeKwd k := by
  cases k with
  | toks l =>
    simp only [normalizeKwd, List.map_map]
    exact congrArg _ (List.map_congr_left fun s _ => pyLower_idem s)
  | raw s =>
    simp only [normalizeKwd, List.map_map]
    refine congrArg _ (List.map_congr_left fun t _ => ?_)
    exact pyLower_idem (pyStrip t)

/-! ## Claim C7 -/

/-- C7: the normalization pass is idempotent — a record it has produced is
a fixed point of a second application. -/
theorem c7_normalization_idempotent (a b : Article) (h : normalizeRecord a = .ok b) :
    normalizeRecord b = .ok b := by
  unfold normalizeRecord at h ⊢
  cases hc : normalizeCnt a.cnt with
  | error e => rw [hc] at h; cases h
  | ok c =>
    rw [hc] at h
    injection h with h'
    subst h'
    obtain ⟨n, rfl⟩ : ∃ n, c = .num n := by
      cases hcnt : a.cnt with
      | num m =>
        rw [hcnt] at hc
        injection hc with e
        exact ⟨m, e.symm⟩
      | raw s =>
        rw [hcnt] at hc
        simp only [normalizeCnt] at hc
        cases hfd : firstDigitRun s.data with
        | none => rw [hfd] at hc; cases hc
        | some ds => rw [hfd] at hc; injection hc with e; exact ⟨_, e.symm⟩
    dsimp only [normalizeCnt]
    rw [excNorm_idem, normalizeKwd_idem]

/-- C7 (witness): the record parsed from the concrete scenario page is
normalized to `c1Norm`, and `c1Norm` is a fixed point of the pass. -/
theorem c7_normalization_idempotent_witness :
    normalizeRecord c1Raw = .ok c1Norm ∧ normalizeRecord c1Norm = .ok c1Norm :=
  ⟨by set_option maxRecDepth 4000 in rfl,
   c7_normalization_idempotent c1Raw c1Norm (by set_option maxRecDepth 4000 in rfl)⟩

/-! ## Claim C10 -/

lemma firstDigitRun_eq_none (l : List Char) (h : ∀ c ∈ l, ¬ c.isDigit) :
    firstDigitRun l = none := by
  induction l with
  | nil => rfl
  | cons c cs ih =>
    unfold firstDigitRun
    rw [if_neg (by simpa using h c (List.mem_cons_self c cs))]
    exact ih fun x hx => h x (List.mem_cons_of_mem c hx)

lemma firstDigitRun_eq_some (l : List Char) (h : ∃ c ∈ l, c.isDigit) :
    ∃ ds, firstDigitRun l = some ds := by
  induction l with
  | nil => obtain ⟨c, hc, _⟩ := h; cases hc
  | cons c cs ih =>
    unfold firstDigitRun
    by_cases hd : c.isDigit
    · exact ⟨_, by rw [if_pos hd]⟩
    · obtain ⟨x, hx, hxd⟩ := h
      rcases List.mem_cons.mp hx with rfl | hx'
      · exact absurd hxd hd
      · rw [if_neg hd]
        exact ih ⟨x, hx', hxd⟩

/-- C10: the `cnt` coercion of the normalization pass is total exactly when
the raw text contains a digit.  On a record whose non-integer `cnt` has no
digit, the first-digit-run search fails and the pass raises
(`AttributeError` on `None.group()`); when a digit is present the error
branch is unreachable and the coerced value is the integer value of the
first digit run. -/
theorem c10_cnt_coercion (a : Article) (s : String) (hraw : a.cnt = .raw s) :
    ((∀ c ∈ s.data, ¬ c.isDigit) → normalizeRecord a = .error .attributeError) ∧
    ((∃ c ∈ s.data, c.isDigit) →
      ∃ ds b, firstDigitRun s.data = some ds ∧ normalizeRecord a = .ok b ∧
        b.cnt = .num (natOfDigits ds)) := by
  constructor
  · intro hno
    unfold normalizeRecord
    rw [hraw]
    dsimp only [normalizeCnt]
    rw [firstDigitRun_eq_none s.data hno]
  · intro hex
    obtain ⟨ds, hds⟩ := firstDigitRun_eq_some s.data hex
    have hb : normalizeRecord a = .ok
        { a with
          cnt := .num (natOfDigits ds)
          exc := pyLower (stripPunct a.exc)
          kwd := normalizeKwd a.kwd } := by
      unfold normalizeRecord
      rw [hraw]
      simp only [normalizeCnt]
      rw [hds]
    exact ⟨ds, _, hds, hb, rfl⟩

/-- C10 (witness): the raw count `"42 times"` of the scenario record has a
digit, so the coercion succeeds and yields `42`. -/
theorem c10_cnt_coercion_witness :
    c1Raw.cnt = CntField.raw "42 times" ∧
      ((∀ c ∈ "42 times".data, ¬ c.isDigit) →
        normalizeRecord c1Raw = .error .attributeError) ∧
      ((∃ c ∈ "42 times".data, c.isDigit) →
        ∃ ds b, firstDigitRun "42 times".data = some ds ∧
          normalizeRecord c1Raw = .ok b ∧ b.cnt = .num (natOfDigits ds)) :=
  ⟨rfl, c10_cnt_coercion c1Raw "42 times" rfl⟩

/-! ## Claims C3 and C9 -/

lemma foldl_anchorStep_ids (l : List Anchor) (acc : List String × String) :
    (l.foldl anchorStep acc).1 = acc.1 ++ l.filterMap (fun a => searchD6 a.href) := by
  induction l generalizing acc with
  | nil => simp
  | cons a l ih =>
    rw [List.foldl_cons, ih]
    cases hs : searchD6 a.href with
    | some g => simp [anchorStep, hs]
    | none =>
      by_cases hn : hasNextArticles a.text.data
      · simp [anchorStep, hs, hn]
      · simp [anchorStep, hs, hn]

lemma foldl_anchorStep_next (l : List Anchor) (acc : List String × String) :
    (l.foldl anchorStep acc).2 = lastNextHref l acc.2 := by
  induction l generalizing acc with
  | nil => simp [lastNextHref]
  | cons a l ih =>
    rw [List.foldl_cons, ih]
    cases hs : searchD6 a.href with
    | some g =>
      have h2 : (anchorStep acc a).2 = acc.2 := by simp [anchorStep, hs]
      rw [h2]
      unfold lastNextHref
      rw [List.filter_cons_of_neg (by simp [hs])]
    | none =>
      by_cases hn : hasNextArticles a.text.data
      · have h2 : (anchorStep acc a).2 = a.href := by simp [anchorStep, hs, hn]
        rw [h2]
        unfold lastNextHref
        rw [List.filter_cons_of_pos (by simp [hs, hn])]
        cases hfl : (l.filter
            (fun x => (searchD6 x.href).isNone && hasNextArticles x.text.data)) with
        | nil => rfl
        | cons b bs =>
          rw [List.getLast?_cons_cons]
          cases hgl : (b :: bs).getLast? with
          | some c => rfl
          | none => simp at hgl
      · have h2 : (anchorStep acc a).2 = acc.2 := by simp [anchorStep, hs, hn]
        rw [h2]
        unfold lastNextHref
        rw [List.filter_cons_of_neg (by simp [hs, hn])]

/-- C3 (counterexample): an anchor whose link target ends in a run of
seven digits does contribute an identifier — the last six of those digits —
whereas the claim says a longer trailing digit run contributes none. -/
theorem c3_counterexample :
    fetchDocIdAndNextPage [{ href := "/lingbuzz/1234567", text := "a paper" }] =
      (["234567"], "") := rfl

/-- C3 (amended): for every listing page, `fetchDocIdAndNextPage` returns
exactly, for each anchor whose link target ends in six decimal digits (the
last six digits of the trailing run, even when that run is longer), those
six digits, in document order with duplicates preserved, together with the
link target of the last anchor that is not such an id match and whose
visible text contains `Next <N> articles`, or the empty string when no such
anchor exists. -/
theorem c3_listing_characterization (anchors : List Anchor) :
    fetchDocIdAndNextPage anchors =
      (anchors.filterMap (fun a => searchD6 a.href), specNextPage anchors) := by
  unfold fetchDocIdAndNextPage specNextPage
  refine Prod.ext ?_ ?_
  · rw [foldl_anchorStep_ids]
    rfl
  · rw [foldl_anchorStep_next]

/-- C9: in the anchor scan, the id match takes precedence over the
next-link match — an anchor matching both is recorded only as a document
identifier and never sets the next-page path, so a page whose only
`Next <N> articles` anchor also id-matches yields an empty next-page
path. -/
theorem c9_id_match_precedence (l : List Anchor) (a : Anchor) (g : String)
    (h1 : searchD6 a.href = some g) (h2 : hasNextArticles a.text.data = true) :
    (fetchDocIdAndNextPage (l ++ [a])).1 = (fetchDocIdAndNextPage l).1 ++ [g] ∧
    (fetchDocIdAndNextPage (l ++ [a])).2 = (fetchDocIdAndNextPage l).2 := by
  unfold fetchDocIdAndNextPage
  rw [List.foldl_append]
  simp [anchorStep, h1]

/-- A single anchor that both ends in six digits and reads
`Next 50 articles`. -/
def dualAnchor : Anchor := { href := "/lingbuzz/004512", text := "Next 50 articles" }

/-- C9 (witness): `dualAnchor` is recorded as id `004512` while the
next-page path stays empty. -/
theorem c9_id_match_precedence_witness :
    searchD6 dualAnchor.href = some "004512" ∧
      hasNextArticles dualAnchor.text.data = true ∧
      (fetchDocIdAndNextPage ([] ++ [dualAnchor])).1 =
        (fetchDocIdAndNextPage ([] : List Anchor)).1 ++ ["004512"] ∧
      (fetchDocIdAndNextPage ([] ++ [dualAnchor])).2 =
        (fetchDocIdAndNextPage ([] : List Anchor)).2 :=
  ⟨rfl, rfl, c9_id_match_precedence [] dualAnchor "004512" rfl rfl⟩

/-! ## Claim C8 -/

lemma decodeJstrs_encode (l : List String) :
    decodeJstrs (l.map .jstr) = some l := by
  induction l with
  | nil => rfl
  | cons s t ih => simp [decodeJstrs, ih]

lemma decodeArticle_encodeArticle (a : Article) :
    decodeArticle (encodeArticle a) = some a := by
  cases a with
  | mk ref tit dat aut pub kwd cnt exc =>
    have step : decodeArticle (encodeArticle ⟨ref, tit, dat, aut, pub, kwd, cnt, exc⟩) =
        match decodeStrList (.jarr (aut.map .jstr)), decodeKwd (encodeKwd kwd),
            decodeCnt (encodeCnt cnt) with
        | some aut', some kwd', some cnt' => some ⟨ref, tit, dat, aut', pub, kwd', cnt', exc⟩
        | _, _, _ => none := rfl
    rw [step]
    cases kwd <;> cases cnt <;>
      simp [encodeKwd, encodeCnt, decodeKwd, decodeCnt, decodeStrList, decodeJstrs_encode]

lemma loadStore_saveStore (M : Store) : loadStore (saveStore M) = some M := by
  induction M with
  | nil => rfl
  | cons p t ih =>
    simp only [saveStore, loadStore, List.map_cons, loadEntries,
      decodeArticle_encodeArticle] at ih ⊢
    simp [ih]

/-- C8: saving a non-empty store, loading the snapshot back, and saving
again yields the same snapshot value — the load recovers the store exactly
and the second save writes semantically identical content. -/
theorem c8_store_roundtrip (M : Store) (hne : M ≠ []) :
    ∃ M', loadStore (saveStore M) = some M' ∧ saveStore M' = saveStore M :=
  ⟨M, loadStore_saveStore M, rfl⟩

/-- C8 (witness): the singleton store holding the scenario record
round-trips through the snapshot. -/
theorem c8_store_roundtrip_witness :
    ([("004512", c1Norm)] : Store) ≠ [] ∧
      ∃ M', loadStore (saveStore [("004512", c1Norm)]) = some M' ∧
        saveStore M' = saveStore [("004512", c1Norm)] :=
  ⟨by simp, c8_store_roundtrip [("004512", c1Norm)] (by simp)⟩

/-! ## Store lemmas -/

lemma lookupStore_append_some {st : Store} {x : String} {r : Article}
    (h : lookupStore st x = some r) (q : String × Article) :
    lookupStore (st ++ [q]) x = some r := by
  induction st with
  | nil => cases h
  | cons p t ih =>
    simp only [lookupStore, List.cons_append] at h ⊢
    by_cases hp : p.1 = x
    · rw [if_pos hp] at h ⊢; exact h
    · rw [if_neg hp] at h ⊢; exact ih h

lemma lookupStore_append_self {st : Store} {x : String}
    (h : lookupStore st x = none) (v : Article) :
    lookupStore (st ++ [(x, v)]) x = some v := by
  induction st with
  | nil => simp [lookupStore]
  | cons p t ih =>
    simp only [lookupStore, List.cons_append] at h ⊢
    by_cases hp : p.1 = x
    · rw [if_pos hp] at h; cases h
    · rw [if_neg hp] at h ⊢; exact ih h

lemma lookupStore_append_inv {st : Store} {q : String × Article} {x : String} {r : Article}
    (h : lookupStore (st ++ [q]) x = some r) :
    lookupStore st x = some r ∨ (x = q.1 ∧ r = q.2) := by
  induction st with
  | nil =>
    simp only [List.nil_append, lookupStore] at h
    by_cases hq : q.1 = x
    · rw [if_pos hq] at h
      exact Or.inr ⟨hq.symm, (Option.some.inj h).symm⟩
    · rw [if_neg hq] at h; cases h
  | cons p t ih =>
    simp only [List.cons_append, lookupStore] at h ⊢
    by_cases hp : p.1 = x
    · rw [if_pos hp] at h ⊢; exact Or.inl h
    · rw [if_neg hp] at h ⊢; exact ih h

lemma lookupStore_eq_none_iff {st : Store} {x : String} :
    lookupStore st x = none ↔ x ∉ storeKeys st := by
  induction st with
  | nil => simp [lookupStore, storeKeys]
  | cons p t ih =>
    simp only [lookupStore, storeKeys, List.map_cons, List.mem_cons]
    by_cases hp : p.1 = x
    · rw [if_pos hp]
      simp [hp.symm]
    · rw [if_neg hp, ih]
      simp only [storeKeys]
      constructor
      · intro hx
        rintro (h1 | h2)
        · exact hp h1.symm
        · exact hx h2
      · intro hx h2
        exact hx (Or.inr h2)

/-! ## Invariants of the inner id loop -/

lemma processIds_spec (f : String → Article) :
    ∀ (ids : List String) (st : Store) (log : List String),
      (∀ x r, lookupStore st x = some r →
        lookupStore (processIds f ids st log).1 x = some r) ∧
      (∀ x r, lookupStore (processIds f ids st log).1 x = some r →
        lookupStore st x = some r ∨ r = f x) ∧
      (∀ i ∈ ids, (lookupStore (processIds f ids st log).1 i).isSome) ∧
      (∀ x ∈ (processIds f ids st log).2, x ∈ log ∨ lookupStore st x = none) ∧
      ((storeKeys st).Nodup → (storeKeys (processIds f ids st log).1).Nodup) := by
  intro ids
  induction ids with
  | nil =>
    intro st log
    refine ⟨fun x r h => h, fun x r h => Or.inl h, ?_, fun x hx => Or.inl hx, fun h => h⟩
    intro i hi
    cases hi
  | cons i ids ih =>
    intro st log
    by_cases hpres : (lookupStore st i).isSome
    · have hstep : processIds f (i :: ids) st log = processIds f ids st log := by
        simp only [processIds, if_pos hpres]
      rw [hstep]
      obtain ⟨p1, p2, p3, p4, p5⟩ := ih st log
      refine ⟨p1, p2, ?_, p4, p5⟩
      intro j hj
      rcases List.mem_cons.mp hj with rfl | hj'
      · obtain ⟨r, hr⟩ := Option.isSome_iff_exists.mp hpres
        rw [p1 j r hr]
        rfl
      · exact p3 j hj'
    · have hnone : lookupStore st i = none := Option.not_isSome_iff_eq_none.mp hpres
      have hstep : processIds f (i :: ids) st log =
          processIds f ids (st ++ [(i, f i)]) (log ++ [i]) := by
        simp only [processIds, if_neg hpres]
      rw [hstep]
      obtain ⟨p1, p2, p3, p4, p5⟩ := ih (st ++ [(i, f i)]) (log ++ [i])
      refine ⟨?_, ?_, ?_, ?_, ?_⟩
      · intro x r h
        exact p1 x r (lookupStore_append_some h (i, f i))
      · intro x r h
        rcases p2 x r h with h' | h'
        · rcases lookupStore_append_inv h' with h'' | ⟨rfl, rfl⟩
          · exact Or.inl h''
          · exact Or.inr rfl
        · exact Or.inr h'
      · intro j hj
        rcases List.mem_cons.mp hj with rfl | hj'
        · rw [p1 j (f j) (lookupStore_append_self hnone (f j))]
          rfl
        · exact p3 j hj'
      · intro x hx
        rcases p4 x hx with h' | h'
        · rcases List.mem_append.mp h' with h'' | h''
          · exact Or.inl h''
          · rw [List.mem_singleton] at h''
            subst h''
            exact Or.inr hnone
        · cases hlx : lookupStore st x with
          | none => exact Or.inr rfl
          | some r =>
            rw [lookupStore_append_some hlx (i, f i)] at h'
            cases h'
      · intro hnd
        refine p5 ?_
        have : storeKeys (st ++ [(i, f i)]) = storeKeys st ++ [i] := by
          simp [storeKeys]
        rw [this]
        rw [List.nodup_append]
        exact ⟨hnd, List.nodup_singleton i,
          by simpa [List.disjoint_singleton] using lookupStore_eq_none_iff.mp hnone⟩

/-! ## Invariants of the crawl loop -/

lemma crawlLoop_spec (site : String → List String × String) (f : String → Article) :
    ∀ (fuel : Nat) (page : String) (st : Store) (log : List String)
      (out : Store × List String),
      crawlLoop site f fuel page st log = some out →
      (∀ x r, lookupStore st x = some r → lookupStore out.1 x = some r) ∧
      (∀ x r, lookupStore out.1 x = some r → lookupStore st x = some r ∨ r = f x) ∧
      (∀ i ∈ listedIds site fuel page, (lookupStore out.1 i).isSome) ∧
      (∀ x ∈ out.2, x ∈ log ∨ lookupStore st x = none) ∧
      ((storeKeys st).Nodup → (storeKeys out.1).Nodup) := by
  intro fuel
  induction fuel with
  | zero => intro page st log out h; cases h
  | succ fuel ih =>
    intro page st log out h
    rw [crawlLoop] at h
    by_cases hend : (site page).2 = ""
    · rw [if_pos hend] at h
      injection h with h'
      subst h'
      have hlist : listedIds site (fuel + 1) page = [] := by
        rw [listedIds, if_pos hend]
      rw [hlist]
      exact ⟨fun x r hr => hr, fun x r hr => Or.inl hr, fun i hi => absurd hi (by simp),
        fun x hx => Or.inl hx, fun hnd => hnd⟩
    · rw [if_neg hend] at h
      obtain ⟨q1, q2, q3, q4, q5⟩ := processIds_spec f (site page).1 st log
      obtain ⟨p1, p2, p3, p4, p5⟩ := ih (url_base ++ (site page).2)
        (processIds f (site page).1 st log).1 (processIds f (site page).1 st log).2 out h
      have hlist : listedIds site (fuel + 1) page =
          (site page).1 ++ listedIds site fuel (url_base ++ (site page).2) := by
        rw [listedIds, if_neg hend]
      refine ⟨?_, ?_, ?_, ?_, fun hnd => p5 (q5 hnd)⟩
      · intro x r hr
        exact p1 x r (q1 x r hr)
      · intro x r hr
        rcases p2 x r hr with h' | h'
        · exact q2 x r h'
        · exact Or.inr h'
      · intro i hi
        rw [hlist] at hi
        rcases List.mem_append.mp hi with hi' | hi'
        · obtain ⟨r, hr⟩ := Option.isSome_iff_exists.mp (q3 i hi')
          rw [p1 i r hr]
          rfl
        · exact p3 i hi'
      · intro x hx
        rcases p4 x hx with h' | h'
        · exact q4 x h'
        · cases hlx : lookupStore st x with
          | none => exact Or.inr rfl
          | some r =>
            rw [q1 x r hlx] at h'
            cases h'

/-! ## Claim C2 -/

/-- C2 (counterexample): a completed run over a single listing page whose
next-page path is empty fetches and inserts nothing — the loop `break`s
before the inner `for` loop runs, so the id `000001` extracted from that
final processed page never reaches the store. -/
theorem c2_counterexample :
    crawlLoop (fun _ => (["000001"], "")) (fun _ => c1Norm) 1 "/lingbuzz" [] [] =
      some ([], []) ∧
      ((fun (_ : String) => (["000001"], "")) "/lingbuzz").1 = ["000001"] ∧
      lookupStore [] "000001" = none :=
  ⟨rfl, rfl, rfl⟩

/-- C2 (amended): after a completed crawl run, every identifier extracted
from a processed listing page other than the final one (the page that
reports an empty next-page path, whose identifiers are never processed) is
present in the final store, and if it was not already in the store at the
start of the run its record is the fetched-and-parsed document page. -/
theorem c2_unseen_ids_inserted (site : String → List String × String)
    (f : String → Article) (fuel : Nat) (page : String) (σ σ' : Store)
    (log : List String) (i : String)
    (h : crawlLoop site f fuel page σ [] = some (σ', log))
    (hi : i ∈ listedIds site fuel page) :
    ∃ r, lookupStore σ' i = some r ∧ (lookupStore σ i = none → r = f i) := by
  obtain ⟨p1, p2, p3, p4, p5⟩ := crawlLoop_spec site f fuel page σ [] (σ', log) h
  obtain ⟨r, hr⟩ := Option.isSome_iff_exists.mp (p3 i hi)
  refine ⟨r, hr, fun hnone => ?_⟩
  rcases p2 i r hr with h' | h'
  · rw [hnone] at h'
    cases h'
  · exact h'

/-- The two-page listing site used as a concrete crawl witness: the entry
page lists `000001` and links to a second page, which ends the crawl. -/
def crawlSite : String → List String × String :=
  fun u => if u = "/lingbuzz" then (["000001"], "?p2") else ([], "")

/-- The fetch-and-parse abstraction used by the crawl witnesses: every
document page parses to the scenario record. -/
def constRecord : String → Article := fun _ => c1Norm

/-- C2 (witness): on the two-page site, the id listed on the non-final
page ends up in the store with its fetched record. -/
theorem c2_unseen_ids_inserted_witness :
    crawlLoop crawlSite constRecord 2 "/lingbuzz" [] [] =
      some ([("000001", c1Norm)], ["000001"]) ∧
      "000001" ∈ listedIds crawlSite 2 "/lingbuzz" ∧
      ∃ r, lookupStore [("000001", c1Norm)] "000001" = some r ∧
        (lookupStore [] "000001" = none → r = constRecord "000001") :=
  ⟨rfl, by decide,
   c2_unseen_ids_inserted crawlSite constRecord 2 "/lingbuzz" [] [("000001", c1Norm)]
     ["000001"] "000001" rfl (by decide)⟩

/-! ## Claim C6 -/

/-- C6: across crawl runs the store is only ever extended.  Given a
completed run from a store with distinct identifiers: (1) every identifier
already present keeps exactly its old record and is never re-fetched (it
never appears in the fetch log); (2) identifiers stay distinct, so no entry
is duplicated; (3) every entry of the final store is either an untouched
old entry or a newly inserted record for a previously-absent identifier;
and (4) a second run over the unchanged site leaves every entry of the
first run's store unchanged. -/
theorem c6_skip_if_present (site : String → List String × String)
    (f : String → Article) (fuel : Nat) (page : String) (σ σ' : Store)
    (log : List String) (hnd : (storeKeys σ).Nodup)
    (h : crawlLoop site f fuel page σ [] = some (σ', log)) :
    (∀ i r, lookupStore σ i = some r → lookupStore σ' i = some r ∧ i ∉ log) ∧
    (storeKeys σ').Nodup ∧
    (∀ i r, lookupStore σ' i = some r →
      lookupStore σ i = some r ∨ (lookupStore σ i = none ∧ r = f i)) ∧
    (∀ σ'' log', crawlLoop site f fuel page σ' [] = some (σ'', log') →
      ∀ i r, lookupStore σ' i = some r → lookupStore σ'' i = some r) := by
  obtain ⟨p1, p2, p3, p4, p5⟩ := crawlLoop_spec site f fuel page σ [] (σ', log) h
  refine ⟨?_, p5 hnd, ?_, ?_⟩
  · intro i r hr
    refine ⟨p1 i r hr, fun hmem => ?_⟩
    rcases p4 i hmem with h' | h'
    · cases h'
    · rw [hr] at h'
      cases h'
  · intro i r hr
    cases hs : lookupStore σ i with
    | none =>
      rcases p2 i r hr with h' | h'
      · rw [hs] at h'
        cases h'
      · exact Or.inr ⟨rfl, h'⟩
    | some r' =>
      have hp := p1 i r' hs
      rw [hr] at hp
      exact Or.inl hp.symm
  · intro σ'' log' h2 i r hr
    obtain ⟨q1, _, _, _, _⟩ := crawlLoop_spec site f fuel page σ' [] (σ'', log') h2
    exact q1 i r hr

/-- C6 (witness): crawling the two-page site starting from the store that
already holds `000001` re-fetches nothing and leaves the entry unchanged. -/
theorem c6_skip_if_present_witness :
    (storeKeys ([] : Store)).Nodup ∧
      crawlLoop crawlSite constRecord 2 "/lingbuzz" [] [] =
        some ([("000001", c1Norm)], ["000001"]) ∧
      ((∀ i r, lookupStore ([] : Store) i = some r →
          lookupStore [("000001", c1Norm)] i = some r ∧ i ∉ ["000001"]) ∧
        (storeKeys [("000001", c1Norm)]).Nodup ∧
        (∀ i r, lookupStore [("000001", c1Norm)] i = some r →
          lookupStore ([] : Store) i = some r ∨
            (lookupStore ([] : Store) i = none ∧ r = constRecord i)) ∧
        (∀ σ'' log', crawlLoop crawlSite constRecord 2 "/lingbuzz"
            [("000001", c1Norm)] [] = some (σ'', log') →
          ∀ i r, lookupStore [("000001", c1Norm)] i = some r →
            lookupStore σ'' i = some r)) :=
  ⟨List.nodup_nil, rfl,
   c6_skip_if_present crawlSite constRecord 2 "/lingbuzz" [] [("000001", c1Norm)]
     ["000001"] List.nodup_nil rfl⟩
